import Mathlib

/-!
Shallow embedding of `src/crates/workspace/src/pane_group.rs`: the pane-group
tree (`PaneGroup` / `Member` / `PaneAxis`), its `split` / `remove` mutations,
the divider drag-resize arithmetic of `PaneAxisElement::paint`, and the
measurement pass of `PaneAxisElement::layout`.

Modelling conventions:
- a pane reference (`ViewHandle<Pane>`, compared by identity) is a `Nat`;
- `f32` values are embedded as `ℚ`;
- the Rust `PaneAxis` struct is flattened into the `Member.axis` constructor
  (axis orientation, ordered children, parallel flex-weight list);
- `&mut self` methods returning `Result` become pure functions returning a
  pair: the first component models the `Result` (`none` = the single error
  kind, anyhow "Pane not found"), the second is the receiver's state after
  the call;
- the children of a `PaneAxisElement` are external collaborators, so the
  measurement pass takes each child's layout as a function from the offered
  span along the axis to the consumed (along, cross) extents.
-/

/-- gpui Axis: the orientation of a pane axis. -/
inductive Axis where
  | horizontal
  | vertical
deriving DecidableEq, Repr

/-- SplitDirection from pane_group.rs. -/
inductive SplitDirection where
  | up
  | down
  | left
  | right
deriving DecidableEq, Repr

/-- SplitDirection::axis: Up/Down map to Vertical, Left/Right to Horizontal. -/
def SplitDirection.axis : SplitDirection → Axis
  | .up | .down => .vertical
  | .left | .right => .horizontal

/-- SplitDirection::increasing: whether the new sibling goes after the old one. -/
def SplitDirection.increasing : SplitDirection → Bool
  | .left | .up => false
  | .down | .right => true

/-- Member: either a leaf pane or an axis group. The axis constructor carries
the fields of the Rust PaneAxis struct: orientation, ordered children, and the
parallel flex-weight list (`flexes: Rc<RefCell<Vec<f32>>>`). -/
inductive Member where
  | axis (ax : Axis) (members : List Member) (flexes : List ℚ) : Member
  | pane (p : Nat) : Member

/-- PaneAxis::new: the flex list is initialised to `vec![1.; members.len()]`. -/
def PaneAxis.new (ax : Axis) (members : List Member) : Member :=
  Member.axis ax members (List.replicate members.length 1)

/-- Member::new_axis: the 2-child axis built when splitting a lone pane.
Up/Left put the new pane first, Down/Right put it second. -/
def Member.newAxis (old new : Nat) (direction : SplitDirection) : Member :=
  let ax : Axis :=
    match direction with
    | .up | .down => .vertical
    | .left | .right => .horizontal
  let members : List Member :=
    match direction with
    | .up | .left => [Member.pane new, Member.pane old]
    | .down | .right => [Member.pane old, Member.pane new]
  PaneAxis.new ax members

mutual
/-- Member::contains: recursive membership test. -/
def Member.contains (needle : Nat) : Member → Bool
  | .axis _ ms _ => Member.containsAny needle ms
  | .pane p => p == needle

/-- the `members.iter().any(|member| member.contains(needle))` part of
Member::contains. -/
def Member.containsAny (needle : Nat) : List Member → Bool
  | [] => false
  | m :: rest => Member.contains needle m || Member.containsAny needle rest
end

mutual
/-- PaneAxis::split called on a member. First component models the
`Result<()>` (`none` is Err("Pane not found")); second component is the
member's state after the call. The source only ever calls it on an Axis
member; on a Pane member the model fails leaving the member unchanged. -/
def Member.splitS (old new : Nat) (direction : SplitDirection) : Member → Option Unit × Member
  | .pane p => (none, .pane p)
  | .axis ax ms fl =>
    match Member.splitMembers old new direction ax ms with
    | (some reset, ms2) =>
      (some (), .axis ax ms2 (if reset then List.replicate ms2.length 1 else fl))
    | (none, ms2) => (none, .axis ax ms2 fl)

/-- the scan loop of PaneAxis::split over `self.members`. On success the
Bool records whether an in-axis insertion happened, in which case the axis
resets its flexes to uniform (`*self.flexes.borrow_mut() = vec![1.; ...]`).
The second component is the scanned list's state after the loop. -/
def Member.splitMembers (old new : Nat) (direction : SplitDirection) (selfAxis : Axis) :
    List Member → Option Bool × List Member
  | [] => (none, [])
  | m :: rest =>
    match m with
    | .axis _ _ _ =>
      match Member.splitS old new direction m with
      | (some _, m2) => (some false, m2 :: rest)
      | (none, m2) =>
        match Member.splitMembers old new direction selfAxis rest with
        | (r, rest2) => (r, m2 :: rest2)
    | .pane p =>
      if p = old then
        if direction.axis = selfAxis then
          (some true,
            if direction.increasing then m :: Member.pane new :: rest
            else Member.pane new :: m :: rest)
        else
          (some false, Member.newAxis old new direction :: rest)
      else
        match Member.splitMembers old new direction selfAxis rest with
        | (r, rest2) => (r, m :: rest2)
end

mutual
/-- PaneAxis::remove called on a member. First component models the
`Result<Option<Member>>`: `none` is Err("Pane not found"); `some collapse`
is Ok, where `collapse = some m` signals that the axis collapsed to the
single surviving member m (returned by `self.members.pop()`, which leaves
the axis's own member list empty). Second component is the member's state
after the call. -/
def Member.removeS (target : Nat) : Member → Option (Option Member) × Member
  | .pane p => (none, .pane p)
  | .axis ax ms fl =>
    match Member.removeMembers target ms with
    | (none, ms2) => (none, .axis ax ms2 fl)
    | (some reset, ms2) =>
      let fl2 := if reset then List.replicate ms2.length 1 else fl
      match ms2 with
      | [last] => (some (some last), .axis ax [] fl2)
      | _ => (some none, .axis ax ms2 fl2)

/-- the scan loop of PaneAxis::remove over `self.members`: a nested axis
child that reports a collapse is replaced in place by its survivor; a leaf
child equal to the target is deleted (Bool true records the deletion, which
triggers the flex reset); the first hit breaks the scan. -/
def Member.removeMembers (target : Nat) : List Member → Option Bool × List Member
  | [] => (none, [])
  | m :: rest =>
    match m with
    | .axis _ _ _ =>
      match Member.removeS target m with
      | (some collapse, m2) =>
        (some false,
          (match collapse with
           | some last => last
           | none => m2) :: rest)
      | (none, m2) =>
        match Member.removeMembers target rest with
        | (r, rest2) => (r, m2 :: rest2)
    | .pane p =>
      if p = target then
        (some true, rest)
      else
        match Member.removeMembers target rest with
        | (r, rest2) => (r, m :: rest2)
end

/-- PaneGroup: owns exactly one root member. -/
structure PaneGroup where
  root : Member

/-- PaneGroup::new. -/
def PaneGroup.new (pane : Nat) : PaneGroup :=
  { root := Member.pane pane }

/-- PaneGroup::split. First component models the `Result<()>`; second is the
group's state after the call. A lone-pane root equal to `old` is replaced by
Member::new_axis; a lone-pane root different from `old` is Err. -/
def PaneGroup.split (g : PaneGroup) (old new : Nat) (direction : SplitDirection) :
    Option Unit × PaneGroup :=
  match g.root with
  | .pane p =>
    if p = old then (some (), { root := Member.newAxis old new direction })
    else (none, g)
  | .axis ax ms fl =>
    match Member.splitS old new direction (.axis ax ms fl) with
    | (r, root2) => (r, { root := root2 })

/-- PaneGroup::remove. First component models the `Result<bool>`
(`some true` = Ok(true), `some false` = Ok(false) for a lone-pane root,
`none` = Err("Pane not found")); second is the group's state after the call.
When the root axis collapses, the surviving member replaces the root. -/
def PaneGroup.remove (g : PaneGroup) (target : Nat) : Option Bool × PaneGroup :=
  match g.root with
  | .pane p => (some false, { root := Member.pane p })
  | .axis ax ms fl =>
    match Member.removeS target (.axis ax ms fl) with
    | (none, root2) => (none, { root := root2 })
    | (some collapse, root2) =>
      match collapse with
      | some last => (some true, { root := last })
      | none => (some true, { root := root2 })

mutual
/-- every axis reachable from this member keeps its flex list the same length
as its child list, with every flex weight strictly positive. -/
def Member.flexOk : Member → Bool
  | .pane _ => true
  | .axis _ ms fl =>
    (fl.length == ms.length) && fl.all (fun f => decide (0 < f)) && Member.flexOkAll ms

/-- Member.flexOk over a child list. -/
def Member.flexOkAll : List Member → Bool
  | [] => true
  | m :: rest => Member.flexOk m && Member.flexOkAll rest
end

/-- HORIZONTAL_MIN_SIZE from the on_drag handler in PaneAxisElement::paint. -/
def HORIZONTAL_MIN_SIZE : ℚ := 80

/-- VERTICAL_MIN_SIZE from the on_drag handler in PaneAxisElement::paint. -/
def VERTICAL_MIN_SIZE : ℚ := 100

/-- the `min_size` selected per axis inside the on_drag handler. -/
def minSizeForAxis : Axis → ℚ
  | .horizontal => HORIZONTAL_MIN_SIZE
  | .vertical => VERTICAL_MIN_SIZE

/-- the clamped `current_target_size` computed by the on_drag handler:
the candidate size of child i is the distance from the start of child i's
box to the pointer, clamped below by `min_size` when shrinking, and above by
the combined size of the two children minus the other child's clamped target
when growing. `childSize` and `nextChildSize` are the painted sizes of
children i and i+1 along the axis, `childStart` the start coordinate of
child i's box, `dragPos` the pointer position along the axis. -/
def dragTargetSize (axis : Axis) (childSize nextChildSize childStart dragPos : ℚ) : ℚ :=
  let minSize := minSizeForAxis axis
  let currentTargetSize := dragPos - childStart
  let proposedCurrentPixelChange := currentTargetSize - childSize
  if proposedCurrentPixelChange < 0 then
    max currentTargetSize minSize
  else if 0 < proposedCurrentPixelChange then
    let nextTargetSize := max (nextChildSize - proposedCurrentPixelChange) minSize
    min currentTargetSize (childSize + nextChildSize - nextTargetSize)
  else
    currentTargetSize

/-- the on_drag handler for the divider between children i and i+1:
returns `none` when the early-return guard fires (either child already
smaller than `min_size - 1`), otherwise the updated pair
(flex[i], flex[i+1]). `dragBoundsLength` is the length of the divider's
container along the axis. -/
def onDrag (axis : Axis)
    (childSize nextChildSize childStart dragPos dragBoundsLength currentFlex nextFlex : ℚ) :
    Option (ℚ × ℚ) :=
  let minSize := minSizeForAxis axis
  if minSize - 1 > childSize ∨ minSize - 1 > nextChildSize then none
  else
    let currentTargetSize := dragTargetSize axis childSize nextChildSize childStart dragPos
    let currentPixelChange := currentTargetSize - childSize
    let flexChange := currentPixelChange / dragBoundsLength
    some (currentFlex + flexChange, nextFlex - flexChange)

/-- the pair (flex[i], flex[i+1]) after one on_drag tick: unchanged when the
guard fires, otherwise the pair written back through the shared flex cell. -/
def applyDrag (axis : Axis)
    (childSize nextChildSize childStart dragPos dragBoundsLength currentFlex nextFlex : ℚ) :
    ℚ × ℚ :=
  match onDrag axis childSize nextChildSize childStart dragPos dragBoundsLength
      currentFlex nextFlex with
  | none => (currentFlex, nextFlex)
  | some p => p

/-- PaneAxisElement::layout_flex_children: walks the children (each paired
with its flex weight), offering each `remaining_space / remaining_flex * flex`
along the axis, subtracting the consumed span and flex, and tracking the
maximum cross-axis extent. Each child is an external element, modelled as a
function from the offered span to its consumed (along, cross) extents.
Returns the final (remaining space, remaining flex, cross-axis max). -/
def layoutFlexChildren : List ((ℚ → ℚ × ℚ) × ℚ) → ℚ → ℚ → ℚ → ℚ × ℚ × ℚ
  | [], remainingSpace, remainingFlex, crossAxisMax =>
    (remainingSpace, remainingFlex, crossAxisMax)
  | (child, flex) :: rest, remainingSpace, remainingFlex, crossAxisMax =>
    let childSize :=
      if remainingFlex = 0 then remainingSpace
      else remainingSpace / remainingFlex * flex
    let consumed := child childSize
    layoutFlexChildren rest (remainingSpace - consumed.1) (remainingFlex - flex)
      (max crossAxisMax consumed.2)

/-- PaneAxisElement::layout, the measurement pass. `maxAlong` is the max
constraint along the flex axis, with `none` modelling an infinite f32 value;
`Except.error ()` models the panic "flex contains flexible children but has
an infinite constraint along the flex axis". The min constraints are taken
finite here; `maxCross` keeps the infinite case, where the cross clamp is
skipped. On success, returns the measured (along, cross) size. -/
def PaneAxisElement.layout (children : List (ℚ → ℚ × ℚ)) (flexes : List ℚ)
    (maxAlong : Option ℚ) (minAlong minCross : ℚ) (maxCross : Option ℚ) :
    Except Unit (ℚ × ℚ) :=
  let remainingFlex := flexes.sum
  match maxAlong with
  | none => Except.error ()
  | some maxA =>
    let r := layoutFlexChildren (children.zip flexes) maxA remainingFlex 0
    let sizeAlong := maxA - r.1
    let sizeCross := r.2.2
    let sizeAlong := max sizeAlong minAlong
    let sizeCross := max sizeCross minCross
    let sizeAlong := min sizeAlong maxA
    let sizeCross :=
      match maxCross with
      | none => sizeCross
      | some mc => min sizeCross mc
    Except.ok (sizeAlong, sizeCross)

/-- C2: splitting a lone pane P with a new pane N produces a 2-child axis
whose orientation and child order are determined by the direction: Right
gives a horizontal axis with children [P, N], Left gives [N, P], Up gives a
vertical axis [N, P], Down gives [P, N], and both flex weights are 1. -/
theorem split_lone_pane_directions (p n : Nat) :
    PaneGroup.split (PaneGroup.new p) p n .right =
      (some (), { root := Member.axis .horizontal [Member.pane p, Member.pane n] [1, 1] }) ∧
    PaneGroup.split (PaneGroup.new p) p n .left =
      (some (), { root := Member.axis .horizontal [Member.pane n, Member.pane p] [1, 1] }) ∧
    PaneGroup.split (PaneGroup.new p) p n .up =
      (some (), { root := Member.axis .vertical [Member.pane n, Member.pane p] [1, 1] }) ∧
    PaneGroup.split (PaneGroup.new p) p n .down =
      (some (), { root := Member.axis .vertical [Member.pane p, Member.pane n] [1, 1] }) := by
  refine ⟨?_, ?_, ?_, ?_⟩ <;>
    simp [PaneGroup.split, PaneGroup.new, Member.newAxis, PaneAxis.new, List.replicate]

/-- C6: one drag-resize tick on the divider between children i and i+1
conserves flex pairwise: the two adjacent flex weights sum to the same value
after the tick as before it (the no-op guard case included). -/
theorem drag_conserves_flex_sum (axis : Axis)
    (childSize nextChildSize childStart dragPos dragBoundsLength currentFlex nextFlex : ℚ) :
    (applyDrag axis childSize nextChildSize childStart dragPos dragBoundsLength
        currentFlex nextFlex).1 +
      (applyDrag axis childSize nextChildSize childStart dragPos dragBoundsLength
        currentFlex nextFlex).2 = currentFlex + nextFlex := by
  unfold applyDrag onDrag
  dsimp only
  split_ifs with h
  · rfl
  · dsimp only
    ring

/-- C7: when both children adjacent to the divider are at or above the
minimum-size floor for the axis, the clamped target size for child i never
goes below the floor and never exceeds the combined size of the two children
minus the floor reserved for child i+1. -/
theorem drag_target_size_clamped (axis : Axis)
    (childSize nextChildSize childStart dragPos : ℚ)
    (h1 : minSizeForAxis axis ≤ childSize) (h2 : minSizeForAxis axis ≤ nextChildSize) :
    minSizeForAxis axis ≤ dragTargetSize axis childSize nextChildSize childStart dragPos ∧
      dragTargetSize axis childSize nextChildSize childStart dragPos ≤
        childSize + nextChildSize - minSizeForAxis axis := by
  unfold dragTargetSize
  dsimp only
  split_ifs with hneg hpos
  · constructor
    · exact le_max_right _ _
    · apply max_le <;> linarith
  · constructor
    · apply le_min <;> [linarith; skip]
      have : max (nextChildSize - (dragPos - childStart - childSize)) (minSizeForAxis axis) ≤
          childSize + nextChildSize - minSizeForAxis axis := by
        apply max_le <;> linarith
      linarith
    · have hfloor : minSizeForAxis axis ≤
          max (nextChildSize - (dragPos - childStart - childSize)) (minSizeForAxis axis) :=
        le_max_right _ _
      have hmin := min_le_right (dragPos - childStart)
        (childSize + nextChildSize -
          max (nextChildSize - (dragPos - childStart - childSize)) (minSizeForAxis axis))
      linarith
  · have h0 : dragPos - childStart = childSize := by linarith
    rw [h0]
    constructor <;> linarith

/-- C7 witness: both children at 100 on a horizontal axis (floor 80), a drag
to position 150 keeps the target between 80 and 120. -/
theorem drag_target_size_clamped_witness :
    minSizeForAxis .horizontal ≤ dragTargetSize .horizontal 100 100 0 150 ∧
      dragTargetSize .horizontal 100 100 0 150 ≤
        100 + 100 - minSizeForAxis .horizontal :=
  drag_target_size_clamped .horizontal 100 100 0 150
    (by norm_num [minSizeForAxis, HORIZONTAL_MIN_SIZE])
    (by norm_num [minSizeForAxis, HORIZONTAL_MIN_SIZE])

/-- C8 counterexample: the claim as stated is false on the code. The
horizontal floor (80) is not larger than the vertical floor (100); moreover
a child at size 79, strictly below the horizontal floor, does not make the
drag a no-op (the guard only fires below floor minus one). -/
theorem min_size_claim_counterexample :
    (¬ VERTICAL_MIN_SIZE < HORIZONTAL_MIN_SIZE) ∧
      (79 : ℚ) < minSizeForAxis .horizontal ∧
      onDrag .horizontal 79 100 0 70 1000 1 1 ≠ none := by
  refine ⟨by norm_num [VERTICAL_MIN_SIZE, HORIZONTAL_MIN_SIZE],
    by norm_num [minSizeForAxis, HORIZONTAL_MIN_SIZE], ?_⟩
  have hguard : ¬(minSizeForAxis Axis.horizontal - 1 > (79 : ℚ) ∨
      minSizeForAxis Axis.horizontal - 1 > (100 : ℚ)) := by
    norm_num [minSizeForAxis, HORIZONTAL_MIN_SIZE]
  unfold onDrag
  dsimp only
  rw [if_neg hguard]
  simp

/-- C8 (amended): the minimum-size floors are distinct per axis, with the
vertical floor strictly larger than the horizontal one; and a drag tick is a
no-op precisely when either adjacent child is already smaller than the
axis's floor minus one. -/
theorem min_size_floors (axis : Axis)
    (childSize nextChildSize childStart dragPos dragBoundsLength currentFlex nextFlex : ℚ) :
    HORIZONTAL_MIN_SIZE < VERTICAL_MIN_SIZE ∧
      (onDrag axis childSize nextChildSize childStart dragPos dragBoundsLength
          currentFlex nextFlex = none ↔
        (childSize < minSizeForAxis axis - 1 ∨ nextChildSize < minSizeForAxis axis - 1)) := by
  constructor
  · norm_num [HORIZONTAL_MIN_SIZE, VERTICAL_MIN_SIZE]
  · unfold onDrag
    dsimp only
    split_ifs with h
    · simpa using h
    · simpa using h

/-- C9: the measurement pass fails (modelling the panic) on an infinite max
constraint along the flex axis, and for every finite max constraint along
that axis it completes, producing a measured size. -/
theorem layout_panic_iff_infinite (children : List (ℚ → ℚ × ℚ)) (flexes : List ℚ)
    (minAlong minCross : ℚ) (maxCross : Option ℚ) :
    PaneAxisElement.layout children flexes none minAlong minCross maxCross =
        Except.error () ∧
      ∀ maxA : ℚ, ∃ sz,
        PaneAxisElement.layout children flexes (some maxA) minAlong minCross maxCross =
          Except.ok sz := by
  constructor
  · rfl
  · intro maxA
    exact ⟨_, rfl⟩

/-- a failed split never mutates: on the Err("Pane not found") path both
PaneAxis::split and its scan loop leave their state exactly as it was. -/
theorem splitS_fail_eq (old new : Nat) (d : SplitDirection) :
    (∀ m : Member,
      (Member.splitS old new d m).1 = none → (Member.splitS old new d m).2 = m) ∧
    (∀ (selfAx : Axis) (l : List Member),
      (Member.splitMembers old new d selfAx l).1 = none →
        (Member.splitMembers old new d selfAx l).2 = l) := by
  refine Member.splitS.mutual_induct old new d _ _ ?_ ?_ ?_ ?_ ?_ ?_ ?_ ?_ ?_
  · intro p
    simp [Member.splitS]
  · intro ax ms fl reset ms2 heq _ h
    simp [Member.splitS, heq] at h
  · intro ax ms fl ms2 heq ih h
    have h1 : ms2 = ms := by
      have h2 := ih (by rw [heq])
      rw [heq] at h2
      exact h2
    simp [Member.splitS, heq, h1]
  · intro selfAx
    simp [Member.splitMembers]
  · intro selfAx rest ax ms flexes val m2 heq _ h
    simp [Member.splitMembers, heq] at h
  · intro selfAx rest ax ms flexes m2 r rest2 heqrest heqm ihm ihrest h
    simp only [Member.splitMembers, heqm, heqrest] at h ⊢
    have h1 : r = none := h
    have h2 : m2 = Member.axis ax ms flexes := by
      have := ihm (by rw [heqm])
      rw [heqm] at this
      exact this
    have h3 : rest2 = rest := by
      have := ihrest (by rw [heqrest]; exact h1)
      rw [heqrest] at this
      exact this
    simp [h2, h3]
  · intro rest h
    simp [Member.splitMembers] at h
  · intro selfAx rest hne h
    simp [Member.splitMembers, hne] at h
  · intro selfAx rest p hp r rest2 heq ih h
    simp only [Member.splitMembers, if_neg hp, heq] at h ⊢
    have h1 : r = none := h
    have h3 : rest2 = rest := by
      have := ih (by rw [heq]; exact h1)
      rw [heq] at this
      exact this
    simp [h3]

/-- splitting against a pane that is nowhere in the subtree fails with the
"Pane not found" error, at the axis level and in the scan loop. -/
theorem splitS_notFound (old new : Nat) (d : SplitDirection) :
    (∀ m : Member,
      Member.contains old m = false → (Member.splitS old new d m).1 = none) ∧
    (∀ (selfAx : Axis) (l : List Member),
      Member.containsAny old l = false → (Member.splitMembers old new d selfAx l).1 = none) := by
  refine Member.splitS.mutual_induct old new d _ _ ?_ ?_ ?_ ?_ ?_ ?_ ?_ ?_ ?_
  · intro p _
    simp [Member.splitS]
  · intro ax ms fl reset ms2 heq ih h
    simp only [Member.contains] at h
    have := ih h
    rw [heq] at this
    simp at this
  · intro ax ms fl ms2 heq _ _
    simp [Member.splitS, heq]
  · intro selfAx _
    simp [Member.splitMembers]
  · intro selfAx rest ax ms flexes val m2 heq ih h
    simp only [Member.containsAny, Bool.or_eq_false_iff] at h
    have := ih h.1
    rw [heq] at this
    simp at this
  · intro selfAx rest ax ms flexes m2 r rest2 heqrest heqm ihm ihrest h
    simp only [Member.containsAny, Bool.or_eq_false_iff] at h
    have h1 : r = none := by
      have := ihrest h.2
      rw [heqrest] at this
      exact this
    simp only [Member.splitMembers, heqm, heqrest]
    exact h1
  · intro rest h
    simp [Member.containsAny, Member.contains] at h
  · intro selfAx rest hne h
    simp [Member.containsAny, Member.contains] at h
  · intro selfAx rest p hp r rest2 heq ih h
    simp only [Member.containsAny, Bool.or_eq_false_iff] at h
    have h1 : r = none := by
      have := ih h.2
      rw [heq] at this
      exact this
    simp only [Member.splitMembers, if_neg hp, heq]
    exact h1

/-- a failed remove never mutates: on the Err("Pane not found") path both
PaneAxis::remove and its scan loop leave their state exactly as it was. -/
theorem removeS_fail_eq (target : Nat) :
    (∀ m : Member,
      (Member.removeS target m).1 = none → (Member.removeS target m).2 = m) ∧
    (∀ l : List Member,
      (Member.removeMembers target l).1 = none → (Member.removeMembers target l).2 = l) := by
  refine Member.removeS.mutual_induct target _ _ ?_ ?_ ?_ ?_ ?_ ?_ ?_ ?_ ?_
  · intro p
    simp [Member.removeS]
  · intro ax ms fl ms2 heq ih h
    have h1 : ms2 = ms := by
      have h2 := ih (by rw [heq])
      rw [heq] at h2
      exact h2
    simp [Member.removeS, heq, h1]
  · intro ax ms fl reset last heq _ h
    simp [Member.removeS, heq] at h
  · intro ax ms fl reset ms2 heq hns _ h
    simp only [Member.removeS, heq] at h
    simp at h
  · intro h
    simp [Member.removeMembers]
  · intro rest ax ms flexes collapse m2 heq _ h
    simp [Member.removeMembers, heq] at h
  · intro rest ax ms flexes m2 r rest2 heqrest heqm ihm ihrest h
    simp only [Member.removeMembers, heqm, heqrest] at h ⊢
    have h1 : r = none := h
    have h2 : m2 = Member.axis ax ms flexes := by
      have := ihm (by rw [heqm])
      rw [heqm] at this
      exact this
    have h3 : rest2 = rest := by
      have := ihrest (by rw [heqrest]; exact h1)
      rw [heqrest] at this
      exact this
    simp [h2, h3]
  · intro rest h
    simp [Member.removeMembers] at h
  · intro rest p hp r rest2 heq ih h
    simp only [Member.removeMembers, if_neg hp, heq] at h ⊢
    have h1 : r = none := h
    have h3 : rest2 = rest := by
      have := ih (by rw [heq]; exact h1)
      rw [heq] at this
      exact this
    simp [h3]

/-- removing a pane that is nowhere in the subtree fails with the
"Pane not found" error, at the axis level and in the scan loop. -/
theorem removeS_notFound (target : Nat) :
    (∀ m : Member,
      Member.contains target m = false → (Member.removeS target m).1 = none) ∧
    (∀ l : List Member,
      Member.containsAny target l = false → (Member.removeMembers target l).1 = none) := by
  refine Member.removeS.mutual_induct target _ _ ?_ ?_ ?_ ?_ ?_ ?_ ?_ ?_ ?_
  · intro p _
    simp [Member.removeS]
  · intro ax ms fl ms2 heq _ _
    simp [Member.removeS, heq]
  · intro ax ms fl reset last heq ih h
    simp only [Member.contains] at h
    have := ih h
    rw [heq] at this
    simp at this
  · intro ax ms fl reset ms2 heq _ ih h
    simp only [Member.contains] at h
    have := ih h
    rw [heq] at this
    simp at this
  · intro _
    simp [Member.removeMembers]
  · intro rest ax ms flexes collapse m2 heq ih h
    simp only [Member.containsAny, Bool.or_eq_false_iff] at h
    have := ih h.1
    rw [heq] at this
    simp at this
  · intro rest ax ms flexes m2 r rest2 heqrest heqm ihm ihrest h
    simp only [Member.containsAny, Bool.or_eq_false_iff] at h
    have h1 : r = none := by
      have := ihrest h.2
      rw [heqrest] at this
      exact this
    simp only [Member.removeMembers, heqm, heqrest]
    exact h1
  · intro rest h
    simp [Member.containsAny, Member.contains] at h
  · intro rest p hp r rest2 heq ih h
    simp only [Member.containsAny, Bool.or_eq_false_iff] at h
    have h1 : r = none := by
      have := ih h.2
      rw [heq] at this
      exact this
    simp only [Member.removeMembers, if_neg hp, heq]
    exact h1

/-- a member that does not contain the target is left untouched by split. -/
theorem splitS_skip (old new : Nat) (d : SplitDirection) (m : Member)
    (h : Member.contains old m = false) :
    Member.splitS old new d m = (none, m) := by
  have h1 := (splitS_notFound old new d).1 m h
  have h2 := (splitS_fail_eq old new d).1 m h1
  rw [Prod.ext_iff]
  exact ⟨h1, h2⟩

/-- a member that does not contain the target is left untouched by remove. -/
theorem removeS_skip (target : Nat) (m : Member)
    (h : Member.contains target m = false) :
    Member.removeS target m = (none, m) := by
  have h1 := (removeS_notFound target).1 m h
  have h2 := (removeS_fail_eq target).1 m h1
  rw [Prod.ext_iff]
  exact ⟨h1, h2⟩

/-- the split scan passes over a prefix none of whose members contains the
old pane, and acts on the remainder of the list. -/
theorem splitMembers_append (old new : Nat) (d : SplitDirection) (selfAx : Axis)
    (pre l : List Member) (h : Member.containsAny old pre = false) :
    Member.splitMembers old new d selfAx (pre ++ l) =
      ((Member.splitMembers old new d selfAx l).1,
        pre ++ (Member.splitMembers old new d selfAx l).2) := by
  induction pre with
  | nil => rfl
  | cons m pre ih =>
    simp only [Member.containsAny, Bool.or_eq_false_iff] at h
    obtain ⟨hm, hpre⟩ := h
    have ih2 := ih hpre
    cases m with
    | pane p =>
      have hp : p ≠ old := by simpa [Member.contains] using hm
      simp only [List.cons_append, Member.splitMembers, if_neg hp, List.append_eq, ih2]
    | axis ax2 cms cfl =>
      have hskip := splitS_skip old new d (.axis ax2 cms cfl) hm
      simp only [List.cons_append, Member.splitMembers, hskip, List.append_eq, ih2]

/-- the remove scan passes over one member that does not contain the target. -/
theorem removeMembers_cons (target : Nat) (m : Member) (rest : List Member)
    (h : Member.contains target m = false) :
    Member.removeMembers target (m :: rest) =
      ((Member.removeMembers target rest).1,
        m :: (Member.removeMembers target rest).2) := by
  cases m with
  | pane p =>
    have hp : p ≠ target := by simpa [Member.contains] using h
    cases hx : Member.removeMembers target rest with
    | mk r rest2 => simp only [Member.removeMembers, if_neg hp, hx]
  | axis ax2 cms cfl =>
    have hskip := removeS_skip target (.axis ax2 cms cfl) h
    cases hx : Member.removeMembers target rest with
    | mk r rest2 => simp only [Member.removeMembers, hskip, hx]

/-- C1 (amended): remove on a tree whose root is an axis fails with the
NotFound error when the pane is reachable nowhere in the tree; but when the
root is a lone pane, remove returns Ok(false) and leaves the tree unchanged,
even when that lone pane differs from the requested one. -/
theorem remove_notFound (ax : Axis) (ms : List Member) (fl : List ℚ) (p q : Nat)
    (h : Member.containsAny p ms = false) :
    (PaneGroup.remove ⟨Member.axis ax ms fl⟩ p).1 = none ∧
      PaneGroup.remove ⟨Member.pane q⟩ p = (some false, ⟨Member.pane q⟩) := by
  constructor
  · cases hx : Member.removeS p (Member.axis ax ms fl) with
    | mk r root2 =>
      have h1 := (removeS_notFound p).1 (Member.axis ax ms fl)
        (by simpa [Member.contains] using h)
      rw [hx] at h1
      subst h1
      simp [PaneGroup.remove, hx]
  · rfl

/-- C1 witness: a horizontal root axis over panes 0 and 1 contains neither 5
nor anything matching it, so removing pane 5 fails; a lone-pane root 7 gives
Ok(false) for the same request. -/
theorem remove_notFound_witness :
    (PaneGroup.remove ⟨Member.axis .horizontal [Member.pane 0, Member.pane 1] [1, 1]⟩ 5).1 =
        none ∧
      PaneGroup.remove ⟨Member.pane 7⟩ 5 = (some false, ⟨Member.pane 7⟩) :=
  remove_notFound .horizontal [Member.pane 0, Member.pane 1] [1, 1] 5 7 (by decide)

/-- C1 counterexample: pane 1 is not reachable in the tree whose root is the
lone pane 0, yet remove(1) does not fail with NotFound (it returns
Ok(false)), contradicting the claim's lone-pane case. -/
theorem remove_lone_pane_counterexample :
    Member.contains 1 (Member.pane 0) = false ∧
      (PaneGroup.remove ⟨Member.pane 0⟩ 1).1 ≠ none := by
  constructor
  · rfl
  · simp [PaneGroup.remove]

/-- C10: split and remove are atomic on failure: whenever PaneGroup::split
or PaneGroup::remove returns the NotFound error, the tree (root member,
every axis's children and their order, and every axis's flexes) is exactly
as it was before the call. -/
theorem split_remove_atomic_on_failure (g : PaneGroup) (old new target : Nat)
    (d : SplitDirection) :
    ((PaneGroup.split g old new d).1 = none → (PaneGroup.split g old new d).2 = g) ∧
    ((PaneGroup.remove g target).1 = none → (PaneGroup.remove g target).2 = g) := by
  obtain ⟨root⟩ := g
  constructor
  · intro h
    cases root with
    | pane p =>
      by_cases hp : p = old
      · simp [PaneGroup.split, hp] at h
      · simp [PaneGroup.split, hp]
    | axis ax ms fl =>
      cases hx : Member.splitS old new d (Member.axis ax ms fl) with
      | mk r root2 =>
        simp only [PaneGroup.split, hx] at h ⊢
        have h2 := (splitS_fail_eq old new d).1 (Member.axis ax ms fl) (by rw [hx]; exact h)
        rw [hx] at h2
        simpa using h2
  · intro h
    cases root with
    | pane p => simp [PaneGroup.remove] at h
    | axis ax ms fl =>
      cases hx : Member.removeS target (Member.axis ax ms fl) with
      | mk r root2 =>
        cases r with
        | none =>
          simp only [PaneGroup.remove, hx] at h ⊢
          have h2 := (removeS_fail_eq target).1 (Member.axis ax ms fl) (by rw [hx])
          rw [hx] at h2
          simpa using h2
        | some collapse =>
          cases collapse <;> simp [PaneGroup.remove, hx] at h

/-- C10 witness: a failing split against a lone pane and a failing remove on
a two-pane axis both leave the tree exactly as it was. -/
theorem split_remove_atomic_on_failure_witness :
    (PaneGroup.split ⟨Member.pane 0⟩ 1 2 .right).2 = ⟨Member.pane 0⟩ ∧
      (PaneGroup.remove ⟨Member.axis .horizontal [Member.pane 0, Member.pane 1] [1, 1]⟩ 5).2 =
        ⟨Member.axis .horizontal [Member.pane 0, Member.pane 1] [1, 1]⟩ :=
  ⟨(split_remove_atomic_on_failure ⟨Member.pane 0⟩ 1 2 5 .right).1 (by rfl),
    (split_remove_atomic_on_failure
      ⟨Member.axis .horizontal [Member.pane 0, Member.pane 1] [1, 1]⟩ 1 2 5 .right).2 (by rfl)⟩

/-- C4: removing a pane from a 2-child axis collapses that axis: the
surviving member (possibly itself a nested axis) replaces the axis when the
axis is the root of the group, or replaces the axis in place inside its
parent axis, and the removal reports success (Ok(true) at the group level,
Ok with no further collapse at the parent level when the parent keeps at
least two children). -/
theorem remove_collapses_two_child_axis (ax parentAx : Axis) (m : Member)
    (target : Nat) (fl parentFl : List ℚ) (rest : List Member)
    (h : Member.contains target m = false) (hrest : rest ≠ []) :
    PaneGroup.remove ⟨Member.axis ax [Member.pane target, m] fl⟩ target =
        (some true, ⟨m⟩) ∧
      PaneGroup.remove ⟨Member.axis ax [m, Member.pane target] fl⟩ target =
        (some true, ⟨m⟩) ∧
      Member.removeS target
          (Member.axis parentAx
            (Member.axis ax [Member.pane target, m] fl :: rest) parentFl) =
        (some none, Member.axis parentAx (m :: rest) parentFl) := by
  have h1 : Member.removeMembers target [Member.pane target, m] = (some true, [m]) := by
    simp [Member.removeMembers]
  have h2 : Member.removeS target (Member.axis ax [Member.pane target, m] fl) =
      (some (some m), Member.axis ax [] [1]) := by
    simp [Member.removeS, h1, List.replicate]
  refine ⟨?_, ?_, ?_⟩
  · simp [PaneGroup.remove, h2]
  · have h3 : Member.removeMembers target [m, Member.pane target] = (some true, [m]) := by
      rw [removeMembers_cons target m [Member.pane target] h]
      simp [Member.removeMembers]
    have h4 : Member.removeS target (Member.axis ax [m, Member.pane target] fl) =
        (some (some m), Member.axis ax [] [1]) := by
      simp [Member.removeS, h3, List.replicate]
    simp [PaneGroup.remove, h4]
  · cases rest with
    | nil => exact absurd rfl hrest
    | cons r0 rrest =>
      have h5 : Member.removeMembers target
          (Member.axis ax [Member.pane target, m] fl :: r0 :: rrest) =
          (some false, m :: r0 :: rrest) := by
        simp [Member.removeMembers, h2]
      simp [Member.removeS, h5]

/-- C4 witness: removing pane 0 from the 2-child axis over pane 0 and the
nested vertical axis over panes 3 and 4 collapses to that nested axis, in
both child orders and inside a parent axis with one further sibling. -/
theorem remove_collapses_two_child_axis_witness :
    PaneGroup.remove
        ⟨Member.axis .horizontal
          [Member.pane 0, Member.axis .vertical [Member.pane 3, Member.pane 4] [1, 1]]
          [1, 1]⟩ 0 =
      (some true, ⟨Member.axis .vertical [Member.pane 3, Member.pane 4] [1, 1]⟩) ∧
    PaneGroup.remove
        ⟨Member.axis .horizontal
          [Member.axis .vertical [Member.pane 3, Member.pane 4] [1, 1], Member.pane 0]
          [1, 1]⟩ 0 =
      (some true, ⟨Member.axis .vertical [Member.pane 3, Member.pane 4] [1, 1]⟩) ∧
    Member.removeS 0
        (Member.axis .vertical
          (Member.axis .horizontal
            [Member.pane 0, Member.axis .vertical [Member.pane 3, Member.pane 4] [1, 1]]
            [1, 1] :: [Member.pane 9]) [1, 1]) =
      (some none,
        Member.axis .vertical
          (Member.axis .vertical [Member.pane 3, Member.pane 4] [1, 1] :: [Member.pane 9])
          [1, 1]) :=
  remove_collapses_two_child_axis .horizontal .vertical
    (Member.axis .vertical [Member.pane 3, Member.pane 4] [1, 1]) 0 [1, 1] [1, 1]
    [Member.pane 9] (by rfl) (by simp)

/-- C3: for a pane `old` that sits as a leaf child of an axis, after a prefix
of siblings none of which contains it: splitting in a direction whose axis
equals the axis's orientation inserts the new pane as a sibling in the same
axis (one more child, all of the axis's flex weights reset to 1, the new
pane before `old` for Up/Left and after it for Down/Right); splitting in a
perpendicular direction instead replaces just that leaf child by a fresh
2-child nested axis, leaving the axis's own flexes untouched. -/
theorem split_in_axis (ax : Axis) (pre post : List Member) (fl : List ℚ)
    (old new : Nat) (d : SplitDirection)
    (h : Member.containsAny old pre = false) :
    Member.splitS old new d (Member.axis ax (pre ++ Member.pane old :: post) fl) =
      (some (),
        if d.axis = ax then
          Member.axis ax
            (pre ++ (if d.increasing then [Member.pane old, Member.pane new]
                     else [Member.pane new, Member.pane old]) ++ post)
            (List.replicate (pre.length + post.length + 2) 1)
        else
          Member.axis ax (pre ++ Member.newAxis old new d :: post) fl) := by
  have hs := splitMembers_append old new d ax pre (Member.pane old :: post) h
  by_cases hax : d.axis = ax
  · cases hinc : d.increasing with
    | true =>
      have hhead : Member.splitMembers old new d ax (Member.pane old :: post) =
          (some true, Member.pane old :: Member.pane new :: post) := by
        simp [Member.splitMembers, hax, hinc]
      rw [hhead] at hs
      simp only [Member.splitS, hs, if_pos hax, hinc]
      have hlen : (pre ++ Member.pane old :: Member.pane new :: post).length =
          pre.length + post.length + 2 := by
        simp [List.length_append]
        omega
      simp [hlen]
    | false =>
      have hhead : Member.splitMembers old new d ax (Member.pane old :: post) =
          (some true, Member.pane new :: Member.pane old :: post) := by
        simp [Member.splitMembers, hax, hinc]
      rw [hhead] at hs
      simp only [Member.splitS, hs, if_pos hax, hinc]
      have hlen : (pre ++ Member.pane new :: Member.pane old :: post).length =
          pre.length + post.length + 2 := by
        simp [List.length_append]
        omega
      simp [hlen]
  · have hhead : Member.splitMembers old new d ax (Member.pane old :: post) =
        (some false, Member.newAxis old new d :: post) := by
      simp [Member.splitMembers, hax]
    rw [hhead] at hs
    simp only [Member.splitS, hs, if_neg hax]
    simp

/-- C3 witness: splitting pane 0 (sitting after sibling pane 7 in a
horizontal axis) to the Right inserts pane 1 right after it with uniform
flexes; splitting it Down wraps it into a nested vertical axis. -/
theorem split_in_axis_witness :
    Member.splitS 0 1 .right
        (Member.axis .horizontal
          ([Member.pane 7] ++ Member.pane 0 :: []) [2, 3]) =
      (some (),
        Member.axis .horizontal
          ([Member.pane 7] ++ [Member.pane 0, Member.pane 1] ++ [])
          (List.replicate 3 1)) ∧
    Member.splitS 0 1 .down
        (Member.axis .horizontal
          ([Member.pane 7] ++ Member.pane 0 :: []) [2, 3]) =
      (some (),
        Member.axis .horizontal
          ([Member.pane 7] ++ Member.newAxis 0 1 .down :: []) [2, 3]) := by
  constructor
  · have h := split_in_axis .horizontal [Member.pane 7] [] [2, 3] 0 1 .right (by rfl)
    simpa using h
  · have h := split_in_axis .horizontal [Member.pane 7] [] [2, 3] 0 1 .down (by rfl)
    simpa using h

/-- the fresh 2-child axis of a pane split keeps its flexes well-formed. -/
theorem newAxis_flexOk (old new : Nat) (d : SplitDirection) :
    Member.flexOk (Member.newAxis old new d) = true := by
  cases d <;> rfl

/-- a successful split keeps every reachable axis's flex list as long as its
child list with all weights positive: the directly mutated axis resets to
uniform weights, and any axis whose child count is unchanged keeps its list. -/
theorem splitS_flexOk (old new : Nat) (d : SplitDirection) :
    (∀ m : Member, Member.flexOk m = true →
      ∀ u m2, Member.splitS old new d m = (some u, m2) → Member.flexOk m2 = true) ∧
    (∀ (selfAx : Axis) (l : List Member), Member.flexOkAll l = true →
      ∀ reset l2, Member.splitMembers old new d selfAx l = (some reset, l2) →
        Member.flexOkAll l2 = true ∧ (reset = false → l2.length = l.length)) := by
  refine Member.splitS.mutual_induct old new d _ _ ?_ ?_ ?_ ?_ ?_ ?_ ?_ ?_ ?_
  · intro p _ u m2 heq2
    simp [Member.splitS] at heq2
  · intro ax ms fl reset ms2 heq ih hOk u m2 heq2
    simp only [Member.flexOk, Bool.and_eq_true, beq_iff_eq] at hOk
    obtain ⟨⟨hlen, hpos⟩, hall⟩ := hOk
    obtain ⟨hall2, hlen2⟩ := ih hall reset ms2 heq
    simp only [Member.splitS, heq] at heq2
    injection heq2 with e1 e2
    subst e2
    cases reset with
    | true =>
      simp only [Member.flexOk, if_pos rfl, Bool.and_eq_true, beq_iff_eq]
      refine ⟨⟨by simp, ?_⟩, hall2⟩
      simp only [List.all_eq_true]
      intro f hf
      obtain ⟨-, rfl⟩ := List.mem_replicate.mp hf
      simp
    | false =>
      rw [if_neg (by simp : ¬((false : Bool) = true))]
      simp only [Member.flexOk, Bool.and_eq_true, beq_iff_eq]
      exact ⟨⟨by rw [hlen]; exact (hlen2 rfl).symm, hpos⟩, hall2⟩
  · intro ax ms fl ms2 heq _ _ u m2 heq2
    simp only [Member.splitS, heq] at heq2
    simp at heq2
  · intro selfAx _ reset l2 heq2
    simp [Member.splitMembers] at heq2
  · intro selfAx rest ax ms flexes val m2 heqm ihm hOkAll reset l2 heq2
    simp only [Member.flexOkAll, Bool.and_eq_true] at hOkAll
    obtain ⟨hOkm, hOkrest⟩ := hOkAll
    simp only [Member.splitMembers, heqm] at heq2
    injection heq2 with e1 e2
    injection e1 with e1
    subst e1 e2
    refine ⟨?_, fun _ => rfl⟩
    simp only [Member.flexOkAll, Bool.and_eq_true]
    exact ⟨ihm hOkm val m2 heqm, hOkrest⟩
  · intro selfAx rest ax ms flexes m2 r rest2 heqrest heqm ihm ihrest hOkAll reset l2 heq2
    simp only [Member.flexOkAll, Bool.and_eq_true] at hOkAll
    obtain ⟨hOkm, hOkrest⟩ := hOkAll
    have hm2 : m2 = Member.axis ax ms flexes := by
      have := (splitS_fail_eq old new d).1 (Member.axis ax ms flexes) (by rw [heqm])
      rw [heqm] at this
      exact this
    simp only [Member.splitMembers, heqm, heqrest] at heq2
    injection heq2 with e1 e2
    subst e1 e2
    obtain ⟨hall2, hlen2⟩ := ihrest hOkrest reset rest2 (by rw [heqrest])
    constructor
    · simp only [Member.flexOkAll, Bool.and_eq_true]
      exact ⟨hm2 ▸ hOkm, hall2⟩
    · intro hr
      simp [hlen2 hr]
  · intro rest hOkAll reset l2 heq2
    simp only [Member.flexOkAll, Bool.and_eq_true] at hOkAll
    obtain ⟨-, hOkrest⟩ := hOkAll
    simp only [Member.splitMembers, if_pos rfl] at heq2
    cases hinc : d.increasing with
    | true =>
      rw [hinc] at heq2
      simp only [if_pos rfl] at heq2
      injection heq2 with e1 e2
      injection e1 with e1
      subst e1 e2
      refine ⟨?_, by intro h; cases h⟩
      simp [Member.flexOkAll, Member.flexOk, hOkrest]
    | false =>
      rw [hinc, if_neg (by simp : ¬((false : Bool) = true))] at heq2
      injection heq2 with e1 e2
      injection e1 with e1
      subst e1 e2
      refine ⟨?_, by intro h; cases h⟩
      simp [Member.flexOkAll, Member.flexOk, hOkrest]
  · intro selfAx rest hne hOkAll reset l2 heq2
    simp only [Member.flexOkAll, Bool.and_eq_true] at hOkAll
    obtain ⟨-, hOkrest⟩ := hOkAll
    simp only [Member.splitMembers, if_pos rfl, if_neg hne] at heq2
    injection heq2 with e1 e2
    injection e1 with e1
    subst e1 e2
    refine ⟨?_, fun _ => rfl⟩
    simp only [Member.flexOkAll, Bool.and_eq_true]
    exact ⟨newAxis_flexOk old new d, hOkrest⟩
  · intro selfAx rest p hp r rest2 heqrest ihrest hOkAll reset l2 heq2
    simp only [Member.flexOkAll, Bool.and_eq_true] at hOkAll
    obtain ⟨hOkm, hOkrest⟩ := hOkAll
    simp only [Member.splitMembers, if_neg hp, heqrest] at heq2
    injection heq2 with e1 e2
    subst e1 e2
    obtain ⟨hall2, hlen2⟩ := ihrest hOkrest reset rest2 (by rw [heqrest])
    constructor
    · simp only [Member.flexOkAll, Bool.and_eq_true]
      exact ⟨hOkm, hall2⟩
    · intro hr
      simp [hlen2 hr]

/-- a successful remove keeps every reachable axis's flex list as long as
its child list with all weights positive; a collapse hands back a survivor
that itself satisfies the invariant. -/
theorem removeS_flexOk (target : Nat) :
    (∀ m : Member, Member.flexOk m = true →
      ∀ c m2, Member.removeS target m = (some c, m2) →
        (∀ last, c = some last → Member.flexOk last = true) ∧
        (c = none → Member.flexOk m2 = true)) ∧
    (∀ l : List Member, Member.flexOkAll l = true →
      ∀ reset l2, Member.removeMembers target l = (some reset, l2) →
        Member.flexOkAll l2 = true ∧ (reset = false → l2.length = l.length)) := by
  refine Member.removeS.mutual_induct target _ _ ?_ ?_ ?_ ?_ ?_ ?_ ?_ ?_ ?_
  · intro p _ c m2 heq2
    simp [Member.removeS] at heq2
  · intro ax ms fl ms2 heq _ _ c m2 heq2
    simp only [Member.removeS, heq] at heq2
    simp at heq2
  · intro ax ms fl reset last heq ih hOk c m2 heq2
    simp only [Member.flexOk, Bool.and_eq_true, beq_iff_eq] at hOk
    obtain ⟨⟨hlen, hpos⟩, hall⟩ := hOk
    obtain ⟨hall2, -⟩ := ih hall reset [last] heq
    simp only [Member.removeS, heq] at heq2
    injection heq2 with e1 e2
    injection e1 with e1
    subst e1 e2
    constructor
    · rintro last2 h2
      injection h2 with h2
      subst h2
      simp only [Member.flexOkAll, Bool.and_eq_true] at hall2
      exact hall2.1
    · rintro ⟨⟩
  · intro ax ms fl reset ms2 heq hns ih hOk c m2 heq2
    simp only [Member.flexOk, Bool.and_eq_true, beq_iff_eq] at hOk
    obtain ⟨⟨hlen, hpos⟩, hall⟩ := hOk
    obtain ⟨hall2, hlen2⟩ := ih hall reset ms2 heq
    simp only [Member.removeS, heq] at heq2
    injection heq2 with e1 e2
    injection e1 with e1
    subst e1 e2
    refine ⟨by rintro last ⟨⟩, fun _ => ?_⟩
    cases reset with
    | true =>
      simp only [Member.flexOk, if_pos rfl, Bool.and_eq_true, beq_iff_eq]
      refine ⟨⟨by simp, ?_⟩, hall2⟩
      simp only [List.all_eq_true]
      intro f hf
      obtain ⟨-, rfl⟩ := List.mem_replicate.mp hf
      simp
    | false =>
      rw [if_neg (by simp : ¬((false : Bool) = true))]
      simp only [Member.flexOk, Bool.and_eq_true, beq_iff_eq]
      exact ⟨⟨by rw [hlen]; exact (hlen2 rfl).symm, hpos⟩, hall2⟩
  · intro _ reset l2 heq2
    simp [Member.removeMembers] at heq2
  · intro rest ax ms flexes collapse m2 heqm ihm hOkAll reset l2 heq2
    simp only [Member.flexOkAll, Bool.and_eq_true] at hOkAll
    obtain ⟨hOkm, hOkrest⟩ := hOkAll
    simp only [Member.removeMembers, heqm] at heq2
    injection heq2 with e1 e2
    injection e1 with e1
    subst e1 e2
    obtain ⟨hsome, hnone⟩ := ihm hOkm collapse m2 heqm
    refine ⟨?_, fun _ => rfl⟩
    simp only [Member.flexOkAll, Bool.and_eq_true]
    refine ⟨?_, hOkrest⟩
    cases collapse with
    | some last => exact hsome last rfl
    | none => exact hnone rfl
  · intro rest ax ms flexes m2 r rest2 heqrest heqm ihm ihrest hOkAll reset l2 heq2
    simp only [Member.flexOkAll, Bool.and_eq_true] at hOkAll
    obtain ⟨hOkm, hOkrest⟩ := hOkAll
    have hm2 : m2 = Member.axis ax ms flexes := by
      have := (removeS_fail_eq target).1 (Member.axis ax ms flexes) (by rw [heqm])
      rw [heqm] at this
      exact this
    simp only [Member.removeMembers, heqm, heqrest] at heq2
    injection heq2 with e1 e2
    subst e1 e2
    obtain ⟨hall2, hlen2⟩ := ihrest hOkrest reset rest2 (by rw [heqrest])
    constructor
    · simp only [Member.flexOkAll, Bool.and_eq_true]
      exact ⟨hm2 ▸ hOkm, hall2⟩
    · intro hr
      simp [hlen2 hr]
  · intro rest hOkAll reset l2 heq2
    simp only [Member.flexOkAll, Bool.and_eq_true] at hOkAll
    obtain ⟨-, hOkrest⟩ := hOkAll
    simp only [Member.removeMembers, if_pos rfl] at heq2
    injection heq2 with e1 e2
    injection e1 with e1
    subst e1 e2
    exact ⟨hOkrest, by intro h; cases h⟩
  · intro rest p hp r rest2 heqrest ihrest hOkAll reset l2 heq2
    simp only [Member.flexOkAll, Bool.and_eq_true] at hOkAll
    obtain ⟨hOkm, hOkrest⟩ := hOkAll
    simp only [Member.removeMembers, if_neg hp, heqrest] at heq2
    injection heq2 with e1 e2
    subst e1 e2
    obtain ⟨hall2, hlen2⟩ := ihrest hOkrest reset rest2 (by rw [heqrest])
    constructor
    · simp only [Member.flexOkAll, Bool.and_eq_true]
      exact ⟨hOkm, hall2⟩
    · intro hr
      simp [hlen2 hr]

/-- C5: starting from a pane group whose axes all satisfy the flex
invariant, after any successful split or remove every axis reachable in the
resulting tree still has exactly one flex weight per child, all strictly
positive. -/
theorem structural_edit_preserves_flexes (g : PaneGroup) (old new target : Nat)
    (d : SplitDirection) (h : Member.flexOk g.root = true) :
    ((PaneGroup.split g old new d).1.isSome = true →
      Member.flexOk (PaneGroup.split g old new d).2.root = true) ∧
    ((PaneGroup.remove g target).1.isSome = true →
      Member.flexOk (PaneGroup.remove g target).2.root = true) := by
  obtain ⟨root⟩ := g
  constructor
  · intro hs
    cases root with
    | pane p =>
      by_cases hp : p = old
      · simp [PaneGroup.split, hp, newAxis_flexOk]
      · simp [PaneGroup.split, hp] at hs
    | axis ax ms fl =>
      cases hx : Member.splitS old new d (Member.axis ax ms fl) with
      | mk r root2 =>
        cases r with
        | none => simp [PaneGroup.split, hx] at hs
        | some u =>
          simp only [PaneGroup.split, hx]
          exact (splitS_flexOk old new d).1 (Member.axis ax ms fl) h u root2 hx
  · intro hs
    cases root with
    | pane p => exact h
    | axis ax ms fl =>
      cases hx : Member.removeS target (Member.axis ax ms fl) with
      | mk r root2 =>
        cases r with
        | none => simp [PaneGroup.remove, hx] at hs
        | some collapse =>
          obtain ⟨hsome, hnone⟩ :=
            (removeS_flexOk target).1 (Member.axis ax ms fl) h collapse root2 hx
          cases collapse with
          | some last =>
            simp only [PaneGroup.remove, hx]
            exact hsome last rfl
          | none =>
            simp only [PaneGroup.remove, hx]
            exact hnone rfl

/-- C5 witness: on the horizontal axis over panes 0 and 1 with uniform
flexes, splitting pane 0 rightwards with pane 2 and removing pane 1 both
leave every reachable axis with one positive flex per child. -/
theorem structural_edit_preserves_flexes_witness :
    Member.flexOk
        (PaneGroup.split ⟨Member.axis .horizontal [Member.pane 0, Member.pane 1] [1, 1]⟩
          0 2 .right).2.root = true ∧
      Member.flexOk
        (PaneGroup.remove ⟨Member.axis .horizontal [Member.pane 0, Member.pane 1] [1, 1]⟩
          1).2.root = true :=
  ⟨(structural_edit_preserves_flexes
      ⟨Member.axis .horizontal [Member.pane 0, Member.pane 1] [1, 1]⟩ 0 2 1 .right
      (by rfl)).1 (by rfl),
    (structural_edit_preserves_flexes
      ⟨Member.axis .horizontal [Member.pane 0, Member.pane 1] [1, 1]⟩ 0 2 1 .right
      (by rfl)).2 (by rfl)⟩
